import Mathlib

/-!
Verification of the claude-skill-plugins repository: a family of local HTTP
proxies (Neon, Linear, Supabase, Notion, Slack skills) sharing a uniform
action-dispatch, validation and error-sanitization contract.

The TypeScript sources are embedded shallowly: strings are `String`/`List Char`,
JavaScript regular expressions are hand-compiled deterministic matchers,
thrown values are inductive types, and HTTP handlers are pure functions from
request data (plus a vendor oracle) to status/body pairs.  JavaScript case
mapping is modelled with ASCII case mapping (`Char.toUpper`/`Char.toLower`),
which agrees with JavaScript on all ASCII inputs; every pattern literal in the
sources is ASCII.
-/

namespace Skills

/-! ### JavaScript string primitives -/

/-- The character set of the JavaScript `\s` class (also used by
`String.prototype.trim`): ASCII whitespace plus the Unicode space separators,
line/paragraph separators and the BOM. -/
def isJsWs (c : Char) : Bool :=
  c = ' ' || c = '\t' || c = '\n' || c = '\r' ||
  c = Char.ofNat 0x0b || c = Char.ofNat 0x0c ||
  c = Char.ofNat 0xa0 || c = Char.ofNat 0x1680 ||
  (Char.ofNat 0x2000 ≤ c && c ≤ Char.ofNat 0x200a) ||
  c = Char.ofNat 0x2028 || c = Char.ofNat 0x2029 ||
  c = Char.ofNat 0x202f || c = Char.ofNat 0x205f ||
  c = Char.ofNat 0x3000 || c = Char.ofNat 0xfeff

/-- JavaScript `String.prototype.trim`: strip `\s` characters from both ends. -/
def jsTrim (l : List Char) : List Char :=
  ((l.dropWhile isJsWs).reverse.dropWhile isJsWs).reverse

/-- Case-insensitive character comparison, as used by the `i` regex flag
(ASCII case folding). -/
def ciEq (a b : Char) : Bool := a.toLower = b.toLower

/-- Case-insensitive list-prefix test. -/
def ciIsPrefixOf : List Char → List Char → Bool
  | [], _ => true
  | _ :: _, [] => false
  | a :: as, b :: bs => ciEq a b && ciIsPrefixOf as bs

/-- JavaScript `String.prototype.includes`: `needle` occurs as a contiguous
substring of `hay`. -/
def hasSub (needle : List Char) : List Char → Bool
  | [] => needle.isPrefixOf []
  | c :: tl => needle.isPrefixOf (c :: tl) || hasSub needle tl

/-! ### Neon `validation.ts`: the SQL read-only classifier -/

/-- The denylist of `src/neon/skills/neon/src/validation.ts` (`dangerousKeywords`). -/
def dangerousKeywords : List String :=
  ["INSERT", "UPDATE", "DELETE", "DROP", "TRUNCATE", "ALTER", "CREATE",
   "GRANT", "REVOKE", "EXECUTE"]

/-- JavaScript `\w` (word character), used by the `\b` boundary. -/
def isWordChar (c : Char) : Bool := c.isAlphanum || c = '_'

/-- A `\b` boundary holds before the match if there is no previous character
or the previous character is not a word character. -/
def boundaryBefore : Option Char → Bool
  | none => true
  | some c => !isWordChar c

/-- A `\b` boundary holds after the match if the remainder is empty or starts
with a non-word character. -/
def boundaryAfter : List Char → Bool
  | [] => true
  | c :: _ => !isWordChar c

/-- The keyword matches at the head of `l` (case-insensitively) with a word
boundary after it. -/
def wholeWordAt (kw l : List Char) : Bool :=
  ciIsPrefixOf kw l && boundaryAfter (l.drop kw.length)

/-- Scan every position of the text, tracking the previous character for the
leading `\b` boundary. -/
def hasWholeWordAux (kw : List Char) : Option Char → List Char → Bool
  | _, [] => false
  | prev, c :: rest =>
    (boundaryBefore prev && wholeWordAt kw (c :: rest)) ||
      hasWholeWordAux kw (some c) rest

/-- `new RegExp("\\b" ++ kw ++ "\\b", "i").test s` for an all-letter keyword. -/
def testWordRegex (kw : String) (s : String) : Bool :=
  hasWholeWordAux kw.toList none s.toList

/-- `isSelectQuery` from `src/neon/skills/neon/src/validation.ts` (lines 43-75):
trim and upper-case the query, require a `SELECT`/`WITH` prefix, reject any
semicolon, and reject any denylist keyword occurring as a whole word
(case-insensitively) anywhere in the raw query text.  The source performs no
comment stripping. -/
def isSelectQuery (query : String) : Bool :=
  let normalized := (jsTrim query.toList).map Char.toUpper
  if !("SELECT".toList.isPrefixOf normalized || "WITH".toList.isPrefixOf normalized) then
    false
  else if query.toList.contains ';' then
    false
  else if dangerousKeywords.any fun kw => testWordRegex kw query then
    false
  else
    true

/-- Modelled from the spec (section 4.2), steps (b)-(d) only: the trimmed,
case-insensitive prefix must be `SELECT` or `WITH`, no semicolon may occur,
and no denylist keyword may occur as a whole word, case-insensitively.  The
comment-stripping step (a) claimed by the spec is absent from the source, so
this definition (the spec minus step (a)) is the candidate the code is
compared against. -/
def specReadOnlyNoCommentStrip (query : String) : Bool :=
  let normalized := (jsTrim query.toList).map Char.toUpper
  ("SELECT".toList.isPrefixOf normalized || "WITH".toList.isPrefixOf normalized)
    && !(query.toList.contains ';')
    && !(dangerousKeywords.any fun kw => testWordRegex kw query)

/-! ### Neon `neon-api.ts` / `index.ts`: the SQL action path -/

/-- Modelled from the spec: `querySchema` is declared in the newer neon
`validation.ts`, which is absent from the sources (only its importer, the neon
`index.ts`, is present).  The repository's SKILL.md documents `sql run` as
accepting arbitrary parameterized query strings and marks only `explain` as
"SELECT only", so the schema is modelled as shape-only validation that accepts
any string. -/
def querySchemaParse (q : String) : Except String String := .ok q

/-- The observable database effect of the SQL layer: the query text actually
sent to the database driver. -/
inductive SqlEffect
  | executed (query : String)
  deriving DecidableEq

/-- `sql.run` from `src/neon/skills/neon/src/neon-api.ts` (lines 157-172):
executes the query directly; no read-only classification is performed. -/
def sqlRun (query : String) : SqlEffect := .executed query

/-- `sql.explain` from `src/neon/skills/neon/src/neon-api.ts` (lines 205-218):
rejects the query unless `isSelectQuery` accepts it, otherwise executes the
`EXPLAIN`-wrapped query. -/
def sqlExplain (query : String) : Except String SqlEffect :=
  if isSelectQuery query then
    .ok (.executed ("EXPLAIN (ANALYZE, FORMAT TEXT) SELECT * FROM (" ++ query
      ++ ") AS _explain_subq"))
  else
    .error "EXPLAIN only supports SELECT queries for safety"

/-- `handleSqlAction` from the neon `index.ts` (lines 223-253), restricted to
the query-handling switch: the `run` action validates the query's shape and
executes it, the `explain` action delegates to `sqlExplain`, any other action
is an error.  (The projectId/branch plumbing and the connection-URI fetch do
not touch the query string and are omitted.) -/
def handleSqlAction (action query : String) : Except String SqlEffect :=
  if action = "run" then do
    let q ← querySchemaParse query
    pure (sqlRun q)
  else if action = "explain" then do
    let q ← querySchemaParse query
    sqlExplain q
  else
    .error ("Unknown sql action: " ++ action)

/-! ### Notion and Linear `validation.ts`: identifier validation -/

/-- The JavaScript character class `[a-f0-9]`. -/
def isHexL (c : Char) : Bool := ('a' ≤ c && c ≤ 'f') || ('0' ≤ c && c ≤ '9')

/-- Require exactly `n` leading `[a-f0-9]` characters and return the rest. -/
def hexChunk (n : Nat) (l : List Char) : Option (List Char) :=
  if (l.take n).length == n && (l.take n).all isHexL then some (l.drop n) else none

/-- Require a leading dash and return the rest. -/
def dashChunk : List Char → Option (List Char)
  | [] => none
  | c :: tl => if c = '-' then some tl else none

/-- `UUID_PATTERN` from `src/notion/skills/notion/src/validation.ts`:
`^[a-f0-9]{8}-[a-f0-9]{4}-[a-f0-9]{4}-[a-f0-9]{4}-[a-f0-9]{12}$`. -/
def uuidTest (l : List Char) : Bool :=
  (Option.bind (hexChunk 8 l) fun r1 =>
    Option.bind (dashChunk r1) fun r2 =>
    Option.bind (hexChunk 4 r2) fun r3 =>
    Option.bind (dashChunk r3) fun r4 =>
    Option.bind (hexChunk 4 r4) fun r5 =>
    Option.bind (dashChunk r5) fun r6 =>
    Option.bind (hexChunk 4 r6) fun r7 =>
    Option.bind (dashChunk r7) fun r8 =>
    Option.bind (hexChunk 12 r8) fun r9 =>
    if r9 = [] then some () else (none : Option Unit)).isSome

/-- `RAW_ID_PATTERN` from the notion `validation.ts`: `^[a-f0-9]{32}$`. -/
def rawTest (l : List Char) : Bool := l.length == 32 && l.all isHexL

/-- The dash insertion performed by `normalizeNotionId`:
`slice(0,8)-slice(8,12)-slice(12,16)-slice(16,20)-slice(20)`. -/
def dashRaw (l : List Char) : List Char :=
  l.take 8 ++ '-' :: ((l.drop 8).take 4 ++ '-' :: ((l.drop 12).take 4
    ++ '-' :: ((l.drop 16).take 4 ++ '-' :: l.drop 20)))

/-- The JavaScript regex `/([a-f0-9]{32})/` applied to a URL: the first
position at which 32 consecutive hex characters occur. -/
def findHexRun32 : List Char → Option (List Char)
  | [] => none
  | c :: tl =>
    let pre := (c :: tl).take 32
    if pre.length == 32 && pre.all isHexL then some pre else findHexRun32 tl

/-- `normalizeNotionId` from `src/notion/skills/notion/src/validation.ts`
(lines 33-52): extract and dash a raw ID from a Notion URL, pass dashed UUIDs
through unchanged, insert dashes into raw 32-hex IDs, and throw on anything
else. -/
def normalizeNotionId (idOrUrl : String) : Except String String :=
  if hasSub "notion.so".toList idOrUrl.toList
      || hasSub "notion.site".toList idOrUrl.toList then
    match findHexRun32 idOrUrl.toList with
    | some raw => .ok ⟨dashRaw raw⟩
    | none => .error "Could not extract Notion ID from URL"
  else if uuidTest idOrUrl.toList then
    .ok idOrUrl
  else if rawTest idOrUrl.toList then
    .ok ⟨dashRaw idOrUrl.toList⟩
  else
    .error "Invalid Notion ID format"

/-- The JavaScript character class `[A-Z]`. -/
def isUpperAZ (c : Char) : Bool := 'A' ≤ c && c ≤ 'Z'

/-- `uuidPattern` from `src/linear/skills/linear/src/validation.ts`:
`^[a-f0-9-]{36}$` (36 characters, each hex or dash). -/
def uuid36Test (l : List Char) : Bool :=
  l.length == 36 && l.all fun c => isHexL c || c == '-'

/-- `issueIdentifierPattern` from the linear `validation.ts`: `^[A-Z]+-\d+$`. -/
def issueKeyTest (l : List Char) : Bool :=
  let letters := l.takeWhile isUpperAZ
  let rest := l.drop letters.length
  !letters.isEmpty &&
    match rest with
    | '-' :: ds => !ds.isEmpty && ds.all Char.isDigit
    | _ => false

/-- `validateLinearId` from the linear `validation.ts` (lines 12-15, 29-31):
`linearIdSchema.parse` accepts either surface form and returns the parsed
string unchanged. -/
def validateLinearId (s : String) : Except String String :=
  if uuid36Test s.toList || issueKeyTest s.toList then .ok s
  else .error "Invalid Linear ID format. Use UUID or issue identifier (e.g., ENG-123)"

/-! ### Thrown values and the per-vendor error sanitizers -/

/-- A JavaScript value reaching a catch block, as far as the neon, notion and
linear sanitizers distinguish them: an `Error` object (carrying `name` and
`message`), or one of the non-Error shapes (a plain string, `undefined`,
`null`, or any other value), which those sanitizers treat uniformly. -/
inductive ThrownValue
  | errObj (name message : String)
  | strVal (s : String)
  | undef
  | nullVal
  | otherVal

/-- The `SanitizedError` interface shared by the `errors.ts` files. -/
structure SanitizedError where
  status : Nat
  message : String
deriving DecidableEq

/-- `message.toLowerCase()` (ASCII case mapping). -/
def lowerL (l : List Char) : List Char := l.map Char.toLower

/-- `message.includes(needle)`. -/
def hasSubStr (needle : String) (hay : List Char) : Bool := hasSub needle.toList hay

/-- `sanitizeError` from `src/neon/skills/neon/src/errors.ts` (lines 10-42). -/
def neonSanitizeError : ThrownValue → SanitizedError
  | .errObj name message =>
    let m := lowerL message.toList
    if hasSubStr "401" m || hasSubStr "unauthorized" m || hasSubStr "invalid api key" m then
      ⟨401, "Invalid API key. Check your Neon Organization API key."⟩
    else if hasSubStr "404" m || hasSubStr "not found" m then
      ⟨404, "Resource not found. Check your project/branch ID."⟩
    else if hasSubStr "403" m || hasSubStr "forbidden" m then
      ⟨403, "Access denied. Check your API key permissions."⟩
    else if hasSubStr "rate limit" m || hasSubStr "429" m then
      ⟨429, "Rate limit exceeded. Try again later."⟩
    else if name = "ZodError" then
      ⟨400, "Invalid request parameters."⟩
    else if hasSubStr "connection" m || hasSubStr "timeout" m then
      ⟨503, "Connection error. Try again later."⟩
    else
      ⟨400, "Request failed. Check your parameters."⟩
  | _ => ⟨500, "An unexpected error occurred"⟩

/-- `sanitizeError` from the notion `errors.ts` (`src/unnamed/part_005`,
lines 10-46). -/
def notionSanitizeError : ThrownValue → SanitizedError
  | .errObj name message =>
    let m := lowerL message.toList
    if hasSubStr "401" m || hasSubStr "unauthorized" m || hasSubStr "invalid api key" m then
      ⟨401, "Invalid API key. Check your Notion integration token."⟩
    else if hasSubStr "404" m || hasSubStr "not found" m || hasSubStr "could not find" m then
      ⟨404, "Resource not found. Check the page/database ID or ensure it\x27s shared with your integration."⟩
    else if hasSubStr "403" m || hasSubStr "forbidden" m || hasSubStr "restricted" m then
      ⟨403, "Access denied. Ensure the page/database is shared with your integration."⟩
    else if hasSubStr "rate limit" m || hasSubStr "429" m then
      ⟨429, "Rate limit exceeded. Try again in a few seconds."⟩
    else if hasSubStr "validation" m || hasSubStr "invalid" m then
      ⟨400, "Invalid request parameters."⟩
    else if name = "ZodError" then
      ⟨400, "Invalid request parameters."⟩
    else if hasSubStr "conflict" m || hasSubStr "409" m then
      ⟨409, "Conflict. The resource may have been modified."⟩
    else
      ⟨400, "Request failed. Check your parameters."⟩
  | _ => ⟨500, "An unexpected error occurred"⟩

/-- `sanitizeError` from the linear `errors.ts` (`src/unnamed/part_000`,
lines 308-344). -/
def linSanitizeError : ThrownValue → SanitizedError
  | .errObj name message =>
    let m := lowerL message.toList
    if hasSubStr "401" m || hasSubStr "unauthorized" m || hasSubStr "authentication" m then
      ⟨401, "Invalid API key. Check your Linear personal API key."⟩
    else if hasSubStr "404" m || hasSubStr "not found" m || hasSubStr "entity not found" m then
      ⟨404, "Resource not found. Check the issue/project/team ID."⟩
    else if hasSubStr "403" m || hasSubStr "forbidden" m || hasSubStr "permission" m then
      ⟨403, "Access denied. Check your API key permissions."⟩
    else if hasSubStr "rate limit" m || hasSubStr "ratelimited" m then
      ⟨429, "Rate limit exceeded. Try again later."⟩
    else if hasSubStr "validation" m || hasSubStr "invalid" m then
      ⟨400, "Invalid request parameters."⟩
    else if name = "ZodError" then
      ⟨400, "Invalid request parameters."⟩
    else if hasSubStr "network" m || hasSubStr "timeout" m || hasSubStr "econnrefused" m then
      ⟨503, "Connection error. Try again later."⟩
    else
      ⟨400, "Request failed. Check your parameters."⟩
  | _ => ⟨500, "An unexpected error occurred"⟩

/-- The statuses produced by the neon sanitizer. -/
def neonStatuses : List Nat := [500, 401, 404, 403, 429, 400, 503]

/-- The fixed messages produced by the neon sanitizer. -/
def neonMessages : List String :=
  ["An unexpected error occurred",
   "Invalid API key. Check your Neon Organization API key.",
   "Resource not found. Check your project/branch ID.",
   "Access denied. Check your API key permissions.",
   "Rate limit exceeded. Try again later.",
   "Invalid request parameters.",
   "Connection error. Try again later.",
   "Request failed. Check your parameters."]

/-- The statuses produced by the notion sanitizer. -/
def notionStatuses : List Nat := [500, 401, 404, 403, 429, 400, 409]

/-- The fixed messages produced by the notion sanitizer. -/
def notionMessages : List String :=
  ["An unexpected error occurred",
   "Invalid API key. Check your Notion integration token.",
   "Resource not found. Check the page/database ID or ensure it\x27s shared with your integration.",
   "Access denied. Ensure the page/database is shared with your integration.",
   "Rate limit exceeded. Try again in a few seconds.",
   "Invalid request parameters.",
   "Conflict. The resource may have been modified.",
   "Request failed. Check your parameters."]

/-! ### A deterministic matcher for the supabase `SENSITIVE_PATTERNS` -/

/-- One atom of a sanitizer pattern: a literal (optionally ASCII
case-insensitive, for the `i` flag), a single character from a class, a
greedy one-or-more class, or a greedy zero-or-more class.  In every pattern
of the sources each greedy class excludes the character that starts the
following atom, so greedy maximal munch coincides with JavaScript's
backtracking semantics. -/
inductive RAtom
  | lit (s : List Char) (ci : Bool)
  | one (p : Char → Bool)
  | cls1 (p : Char → Bool)
  | cls0 (p : Char → Bool)

def litPrefixOk (ci : Bool) (s l : List Char) : Bool :=
  if ci then ciIsPrefixOf s l else s.isPrefixOf l

/-- Length of the maximal prefix satisfying `p`. -/
def countWhile (p : Char → Bool) : List Char → Nat
  | [] => 0
  | c :: tl => if p c then countWhile p tl + 1 else 0

/-- Match a pattern at the head of `l`, returning the number of characters
consumed. -/
def matchAtoms : List RAtom → List Char → Option Nat
  | [], _ => some 0
  | .lit s ci :: rest, l =>
    if litPrefixOk ci s l then (matchAtoms rest (l.drop s.length)).map (· + s.length)
    else none
  | .one p :: rest, l =>
    match l with
    | [] => none
    | c :: tl => if p c then (matchAtoms rest tl).map (· + 1) else none
  | .cls1 p :: rest, l =>
    let k := countWhile p l
    if k = 0 then none else (matchAtoms rest (l.drop k)).map (· + k)
  | .cls0 p :: rest, l =>
    let k := countWhile p l
    (matchAtoms rest (l.drop k)).map (· + k)

/-- A sanitizer pattern: a leading literal followed by further atoms.  Every
`SENSITIVE_PATTERNS` entry starts with a nonempty literal, so every match has
positive length. -/
structure JPat where
  head : List Char
  ci : Bool
  tail : List RAtom

def JPat.atoms (p : JPat) : List RAtom := .lit p.head p.ci :: p.tail

/-- Match a pattern at the head of the text. -/
def pmatch (p : JPat) (l : List Char) : Option Nat := matchAtoms p.atoms l

/-- Position and length of the leftmost match (a pattern with a nonempty
leading literal never matches the empty text, so the empty case is `none`). -/
def findM (p : JPat) : List Char → Option (Nat × Nat)
  | [] => none
  | c :: tl =>
    match pmatch p (c :: tl) with
    | some len => some (0, len)
    | none => (findM p tl).map fun q => (q.1 + 1, q.2)

/-- `String.prototype.replace` with a global regex: replace every
non-overlapping leftmost match by `red`.  Fuelled by the text length; every
pattern used has a nonempty leading literal, so each step consumes at least
one character and fuel `l.length` is always sufficient. -/
def replaceGo (p : JPat) (red : List Char) : Nat → List Char → List Char
  | 0, s => s
  | n + 1, s =>
    match findM p s with
    | none => s
    | some (q, len) => s.take q ++ red ++ replaceGo p red n (s.drop (q + len))

def replaceAllRed (p : JPat) (red : List Char) (l : List Char) : List Char :=
  replaceGo p red l.length l

/-- `[A-Za-z0-9_-]`, the JWT segment class. -/
def isJwtChar (c : Char) : Bool := c.isAlphanum || c == '_' || c == '-'

/-- `[A-Za-z0-9._-]`, the token class of the bearer and apikey patterns. -/
def isTokChar (c : Char) : Bool := c.isAlphanum || c == '.' || c == '_' || c == '-'

/-- `[:\s]`. -/
def isColonWs (c : Char) : Bool := c == ':' || isJsWs c

/-- `[^\s]`. -/
def isNonWs (c : Char) : Bool := !isJsWs c

/-- `[=:]`. -/
def isEqColon (c : Char) : Bool := c == '=' || c == ':'

/-- `/supabase\.co/gi` -/
def patSupabaseCo : JPat := ⟨"supabase.co".toList, true, []⟩

/-- `/eyJ[A-Za-z0-9_-]+\.[A-Za-z0-9_-]+\.[A-Za-z0-9_-]*​/g` (case-sensitive). -/
def patJwt : JPat :=
  ⟨"eyJ".toList, false,
   [.cls1 isJwtChar, .lit ['.'] false, .cls1 isJwtChar, .lit ['.'] false, .cls0 isJwtChar]⟩

/-- `/service_role/gi` -/
def patServiceRole : JPat := ⟨"service_role".toList, true, []⟩

/-- `/anon/gi` -/
def patAnon : JPat := ⟨"anon".toList, true, []⟩

/-- `/Bearer\s+[A-Za-z0-9._-]+/gi` -/
def patBearer : JPat := ⟨"Bearer".toList, true, [.cls1 isJsWs, .cls1 isTokChar]⟩

/-- `/apikey[:\s]+[A-Za-z0-9._-]+/gi` -/
def patApiKey : JPat := ⟨"apikey".toList, true, [.cls1 isColonWs, .cls1 isTokChar]⟩

/-- `/postgres:\/\/[^\s]+/gi` -/
def patPostgres : JPat := ⟨"postgres://".toList, true, [.cls1 isNonWs]⟩

/-- `/postgresql:\/\/[^\s]+/gi` -/
def patPostgresql : JPat := ⟨"postgresql://".toList, true, [.cls1 isNonWs]⟩

/-- `/password[=:][^\s]+/gi` -/
def patPassword : JPat := ⟨"password".toList, true, [.one isEqColon, .cls1 isNonWs]⟩

/-- `SENSITIVE_PATTERNS` from the supabase `errors.ts` (lines 11-21), in
source order. -/
def sensitivePatterns : List JPat :=
  [patSupabaseCo, patJwt, patServiceRole, patAnon, patBearer,
   patApiKey, patPostgres, patPostgresql, patPassword]

/-- The replacement marker. -/
def REDACTED : List Char := "[REDACTED]".toList

/-- The characters a bearer-pattern match can consume: the letters of
`bearer` (case-insensitively), whitespace, and token characters.  Used to
show a match cannot straddle a `[REDACTED]` marker. -/
def bearerCharOK (c : Char) : Bool :=
  "bearer".toList.contains c.toLower || isJsWs c || isTokChar c

/-- `sanitizeMessage` from the supabase `errors.ts` (lines 34-40): apply each
sensitive pattern in order, replacing every match with `[REDACTED]`. -/
def sanitizeMessage (message : String) : String :=
  ⟨sensitivePatterns.foldl (fun result p => replaceAllRed p REDACTED result) message.toList⟩

/-! ### The supabase proxy: `sanitizeError`, `handleAction`, routes -/

/-- A supabase thrown value, as far as the supabase `sanitizeError` and the
`handleAction` catch distinguish them: a `SupabaseSkillError` (message and
code), a thrown `ZodError` (an `Error` whose issue list the catch summarizes
into a string), any other `Error` with an optional `code` property, a plain
string, or any other value. -/
inductive SbThrown
  | skillError (message code : String)
  | zodError (summary : String)
  | jsError (message : String) (code : Option String)
  | strVal (s : String)
  | otherVal

/-- `ERROR_STATUS_MAP` from the supabase `errors.ts` (lines 23-32). -/
def ERROR_STATUS_MAP : List (String × Nat) :=
  [("PGRST301", 401), ("PGRST302", 403), ("42501", 403), ("42P01", 404),
   ("23505", 409), ("23503", 409), ("22P02", 400), ("42703", 400)]

/-- `sanitizeError` from the supabase `errors.ts` (lines 42-69): choose a
status and raw message by the branch structure, then redact the message with
`sanitizeMessage`.  (A thrown `ZodError` is an `Error` without a mapped
`code`, hence status 500 here; `handleAction` intercepts it before this
function in the `/action` path.) -/
def sbSanitizeError (error : SbThrown) : SanitizedError :=
  let pair : String × Nat :=
    match error with
    | .skillError m code =>
      (m, if code = "CONFIG_MISSING" ∨ code = "CONFIG_INVALID" then 500
          else if code = "CLIENT_NOT_INITIALIZED" then 503 else 500)
    | .zodError m => (m, 500)
    | .jsError m code =>
      (m, match code with
          | some c => (ERROR_STATUS_MAP.lookup c).getD 500
          | none => 500)
    | .strVal s => (s, 500)
    | .otherVal => ("An unexpected error occurred", 500)
  ⟨pair.2, sanitizeMessage pair.1⟩

/-- The `actionHandlers` table of the supabase `index.ts` (lines 76-104):
its categories and, per category, its action names, in insertion order. -/
def sbCategoryActions : List (String × List String) :=
  [("data", ["select", "insert", "update", "upsert", "delete"]),
   ("rpc", ["call"]),
   ("tables", ["list", "describe"]),
   ("functions", ["list"])]

def sbCategoryNames : List String := sbCategoryActions.map Prod.fst

/-- `Object.keys(...).join(", ")`. -/
def joinComma (l : List String) : String := String.intercalate ", " l

def findCat : List (String × List String) → String → Option (List String)
  | [], _ => none
  | (k, v) :: tl, c => if c = k then some v else findCat tl c

/-- The error field of a supabase `ActionResponse`: the handler writes either
a plain string or (line 135 of the supabase `index.ts`) the whole
`SanitizedError` object. -/
inductive SbErrVal
  | strV (s : String)
  | obj (e : SanitizedError)
deriving DecidableEq

structure SbResponse (α : Type) where
  success : Bool
  data : Option α
  error : Option SbErrVal

/-- `handleAction` from the supabase `index.ts` (lines 106-137).  `vendor`
abstracts a category/action handler body (parameter validation plus the
vendor call); the second component records whether such a body was invoked at
all — on the two unknown-lookup paths no handler and hence no vendor call
happens. -/
def sbHandleAction {α : Type} (vendor : String → String → Except SbThrown α)
    (category action : String) : SbResponse α × Bool :=
  match findCat sbCategoryActions category with
  | none =>
    ({success := false, data := none,
      error := some (.strV ("Unknown category: " ++ category ++ ". Available: "
        ++ joinComma sbCategoryNames))}, false)
  | some actions =>
    if action ∈ actions then
      match vendor category action with
      | .ok d => ({success := true, data := some d, error := none}, true)
      | .error (.zodError summary) =>
        ({success := false, data := none,
          error := some (.strV ("Validation error: " ++ summary))}, true)
      | .error e =>
        ({success := false, data := none,
          error := some (.obj (sbSanitizeError e))}, true)
    else
      ({success := false, data := none,
        error := some (.strV ("Unknown action: " ++ action ++ ". Available in "
          ++ category ++ ": " ++ joinComma actions))}, false)

/-- `app.post("/action")` from the supabase `index.ts` (lines 146-159): a
missing (falsy) `category` or `action` — modelled as the empty string — gets
status 400; every other request is answered with `res.json(response)`, whose
HTTP status is the Express default 200, for failures as well as successes. -/
def sbPostAction {α : Type} (vendor : String → String → Except SbThrown α)
    (category action : String) : Nat × SbResponse α :=
  if category = "" ∨ action = "" then
    (400, {success := false, data := none,
           error := some (.strV "Missing category or action in request body")})
  else
    (200, (sbHandleAction vendor category action).1)

/-- A stub vendor layer that always succeeds, for call-count assertions. -/
def sbStubVendor : String → String → Except SbThrown Unit := fun _ _ => .ok ()

/-- A stub vendor layer that always fails with a non-Error value. -/
def sbFailVendor : String → String → Except SbThrown Unit := fun _ _ => .error .otherVal

/-! ### The linear proxy: `/action` route -/

/-- The `ActionResponse` shape of the linear/neon/notion proxies. -/
structure ActionResponse (α : Type) where
  success : Bool
  data : Option α
  error : Option String

/-- `app.post("/action")` from the linear `index.ts` (`src/unnamed/part_000`,
lines 54-65).  `outcome` abstracts the awaited try block
(`validateActionRequest` plus `handleAction`): either the handler's data or
the thrown value.  Successes are sent with the Express default status 200;
failures with the sanitizer's status and message. -/
def linearPostAction {α : Type} (outcome : Except ThrownValue α) :
    Nat × ActionResponse α :=
  match outcome with
  | .ok data => (200, ⟨true, some data, none⟩)
  | .error e =>
    ((linSanitizeError e).status, ⟨false, none, some (linSanitizeError e).message⟩)

/-! ### Health endpoints -/

/-- A JSON field value of a health body. -/
inductive JVal
  | s (v : String)
  | n (v : Nat)
deriving DecidableEq

/-- `app.get("/health")` from the notion `index.ts` (lines 51-53): the
handler ignores the request, so it is a constant function of the call index;
`res.json` replies with the Express default status 200. -/
def notionHealth (_callIndex : Nat) : Nat × List (String × JVal) :=
  (200, [("status", .s "ok")])

/-- `app.get("/health")` from the supabase `index.ts` (lines 142-144). -/
def supabaseHealth (_callIndex : Nat) : Nat × List (String × JVal) :=
  (200, [("status", .s "ok"), ("service", .s "supabase-skill"), ("port", .n 9227)])

/-! ### The linear issues handlers: priority forwarding -/

/-- A JSON parameter value, as far as the linear handlers distinguish them. -/
inductive JParam
  | num (n : Int)
  | strV (s : String)
  | undef
  | nullV
  | boolV (b : Bool)

/-- JavaScript truthiness of a `JParam` (`0`, `""`, `undefined`, `null` and
`false` are falsy). -/
def truthy : JParam → Bool
  | .num n => n != 0
  | .strV s => s != ""
  | .undef => false
  | .nullV => false
  | .boolV b => b

/-- `prioritySchema` from the linear `validation.ts` (line 41):
`z.number().int().min(0).max(4)`.  Numeric JSON parameters are modelled as
integers, on which `.int()` always holds; non-numbers fail `z.number()`. -/
def prioritySchemaParse (v : JParam) : Except String Int :=
  match v with
  | .num n => if 0 ≤ n ∧ n ≤ 4 then .ok n else .error "Number must be between 0 and 4"
  | _ => .error "Expected number, received other"

/-- `validateLinearId(params.x)` on an untyped parameter: `z.string()` rejects
non-strings, then `linearIdSchema` applies. -/
def parseLinearIdParam (v : JParam) : Except String String :=
  match v with
  | .strV s => validateLinearId s
  | _ => .error "Expected string, received other"

structure IssueCreateParams where
  teamId : JParam
  title : JParam
  priority : JParam

/-- The fields of the create call forwarded to `client.issues.create`
(`src/unnamed/part_000` lines 119-132), restricted to the fields the claims
concern; the remaining fields are passed through untyped. -/
structure IssueCreateForwarded where
  teamId : String
  title : String
  priority : Option Int
deriving DecidableEq

/-- `case "create"` of `handleIssuesAction` (lines 119-133): validate
`teamId`, require a truthy string `title`, and forward
`params.priority ? prioritySchema.parse(params.priority) : undefined` — a
falsy priority (in particular the number 0) is forwarded as `undefined`, and
a parse failure throws before `client.issues.create` is invoked. -/
def handleIssuesCreate (p : IssueCreateParams) : Except String IssueCreateForwarded := do
  let teamId ← parseLinearIdParam p.teamId
  let title ←
    match p.title with
    | .strV s => if s ≠ "" then Except.ok s else Except.error "title is required"
    | _ => Except.error "title is required"
  let priority ←
    if truthy p.priority then (prioritySchemaParse p.priority).map some
    else Except.ok none
  Except.ok ⟨teamId, title, priority⟩

structure IssueUpdateParams where
  issueId : JParam
  priority : JParam

structure IssueUpdateForwarded where
  issueId : String
  priority : Option Int
deriving DecidableEq

/-- `case "update"` of `handleIssuesAction` (lines 134-145), restricted to
`issueId` and the identically-guarded `priority` field. -/
def handleIssuesUpdate (p : IssueUpdateParams) : Except String IssueUpdateForwarded := do
  let issueId ← parseLinearIdParam p.issueId
  let priority ←
    if truthy p.priority then (prioritySchemaParse p.priority).map some
    else Except.ok none
  Except.ok ⟨issueId, priority⟩

/-! ### Theorems -/

theorem ifChain_eq_and (A B C : Bool) :
    (if !A then false else if B then false else if C then false else true)
      = (A && !B && !C) := by
  cases A <;> cases B <;> cases C <;> simp

/-- C1 counterexample: the spec asserts
`isSelectQuery "-- DROP TABLE t\nSELECT 1" = true` (comments stripped before
classification), but the source strips no comments: the trimmed upper-cased
text starts with `--`, so the prefix test fails and the classifier returns
`false`. -/
theorem isSelectQuery_comment_vector_false :
    isSelectQuery "-- DROP TABLE t\nSELECT 1" = false := by decide

/-- C1 amended: `isSelectQuery` implements the spec's algorithm without the
comment-stripping step: it is extensionally the conjunction of the prefix
test, the semicolon rejection and the denylist rejection, evaluated on the
raw query; on the spec's five test vectors it returns the claimed values
except on the comment vector, which yields `false`. -/
theorem isSelectQuery_characterization :
    (∀ q : String, isSelectQuery q = specReadOnlyNoCommentStrip q)
      ∧ isSelectQuery "SELECT * FROM t" = true
      ∧ isSelectQuery "SELECT 1; DROP TABLE t" = false
      ∧ isSelectQuery "-- DROP TABLE t\nSELECT 1" = false
      ∧ isSelectQuery "UPDATE t SET x=1" = false
      ∧ isSelectQuery "WITH x AS (SELECT 1) SELECT * FROM x" = true := by
  refine ⟨fun q => ?_, by decide, by decide, by decide, by decide, by decide⟩
  simp only [isSelectQuery, specReadOnlyNoCommentStrip]
  exact ifChain_eq_and _ _ _

theorem hasSub_subset : ∀ {h n : List Char}, hasSub n h = true → n ⊆ h := by
  intro h
  induction h with
  | nil =>
    intro n hs
    simp only [hasSub] at hs
    rw [List.isPrefixOf_iff_prefix, List.prefix_nil] at hs
    simp [hs]
  | cons c tl ih =>
    intro n hs
    simp only [hasSub, Bool.or_eq_true] at hs
    rcases hs with hs | hs
    · exact (List.isPrefixOf_iff_prefix.mp hs).sublist.subset
    · exact List.subset_cons_of_subset _ (ih hs)

theorem take_len_append (A r : List Char) : (A ++ r).take A.length = A := by
  induction A with
  | nil => simp
  | cons a as ih => simp [ih]

theorem drop_len_append (A r : List Char) : (A ++ r).drop A.length = r := by
  induction A with
  | nil => simp
  | cons a as ih => simp [ih]

theorem hexChunk_exact (n : Nat) (A r : List Char) (hlen : A.length = n)
    (hall : A.all isHexL = true) : hexChunk n (A ++ r) = some r := by
  subst hlen
  simp [hexChunk, take_len_append, drop_len_append, hall]

theorem hexChunk_entire (n : Nat) (A : List Char) (hlen : A.length = n)
    (hall : A.all isHexL = true) : hexChunk n A = some [] := by
  have := hexChunk_exact n A [] hlen hall
  simpa using this

theorem optBind_some {α β : Type} (a : α) (f : α → Option β) :
    Option.bind (some a) f = f a := rfl

theorem optBind_none {α β : Type} (f : α → Option β) :
    Option.bind none f = none := rfl

theorem dashChunk_cons (tl : List Char) : dashChunk ('-' :: tl) = some tl := by
  simp [dashChunk]

theorem dashChunk_not_dash {c : Char} (tl : List Char) (hc : c ≠ '-') :
    dashChunk (c :: tl) = none := by
  simp [dashChunk, hc]

theorem hex_ne_dash {c : Char} (hc : isHexL c = true) : c ≠ '-' := by
  intro h
  subst h
  simp [isHexL] at hc

theorem uuidTest_of_dashRaw (l : List Char) (h32 : l.length = 32)
    (hmem : ∀ c ∈ l, isHexL c = true) : uuidTest (dashRaw l) = true := by
  have hA : (l.take 8).length = 8 := by simp [h32]
  have hB : ((l.drop 8).take 4).length = 4 := by simp [h32]
  have hC : ((l.drop 12).take 4).length = 4 := by simp [h32]
  have hD : ((l.drop 16).take 4).length = 4 := by simp [h32]
  have hE : (l.drop 20).length = 12 := by simp [h32]
  have hAall : (l.take 8).all isHexL = true :=
    List.all_eq_true.2 fun c hc => hmem c (List.mem_of_mem_take hc)
  have hBall : ((l.drop 8).take 4).all isHexL = true :=
    List.all_eq_true.2 fun c hc =>
      hmem c (List.mem_of_mem_drop (List.mem_of_mem_take hc))
  have hCall : ((l.drop 12).take 4).all isHexL = true :=
    List.all_eq_true.2 fun c hc =>
      hmem c (List.mem_of_mem_drop (List.mem_of_mem_take hc))
  have hDall : ((l.drop 16).take 4).all isHexL = true :=
    List.all_eq_true.2 fun c hc =>
      hmem c (List.mem_of_mem_drop (List.mem_of_mem_take hc))
  have hEall : (l.drop 20).all isHexL = true :=
    List.all_eq_true.2 fun c hc => hmem c (List.mem_of_mem_drop hc)
  simp only [uuidTest, dashRaw,
    hexChunk_exact 8 (l.take 8) _ hA hAall, optBind_some,
    dashChunk_cons,
    hexChunk_exact 4 ((l.drop 8).take 4) _ hB hBall,
    hexChunk_exact 4 ((l.drop 12).take 4) _ hC hCall,
    hexChunk_exact 4 ((l.drop 16).take 4) _ hD hDall,
    hexChunk_entire 12 (l.drop 20) hE hEall]
  simp

theorem uuidTest_raw_false (l : List Char) (h32 : l.length = 32)
    (hmem : ∀ c ∈ l, isHexL c = true) : uuidTest l = false := by
  have h8 : (l.take 8).length = 8 := by simp [h32]
  have h8all : (l.take 8).all isHexL = true :=
    List.all_eq_true.2 fun c hc => hmem c (List.mem_of_mem_take hc)
  have hchunk : hexChunk 8 l = some (l.drop 8) := by
    have := hexChunk_exact 8 (l.take 8) (l.drop 8) h8 h8all
    rwa [List.take_append_drop] at this
  have hdlen : (l.drop 8).length = 24 := by simp [h32]
  cases hd : l.drop 8 with
  | nil => rw [hd] at hdlen; simp at hdlen
  | cons c tl =>
    have hcmem : c ∈ l := List.mem_of_mem_drop (hd ▸ List.mem_cons_self c tl)
    have hdash : dashChunk (c :: tl) = none :=
      dashChunk_not_dash tl (hex_ne_dash (hmem c hcmem))
    simp only [uuidTest, hchunk, optBind_some, hd, hdash, optBind_none,
      Option.isSome_none]

theorem mem_dashRaw {c : Char} {l : List Char} (hc : c ∈ dashRaw l) :
    c ∈ l ∨ c = '-' := by
  simp only [dashRaw, List.mem_append, List.mem_cons] at hc
  rcases hc with h | h | h | h | h | h | h | h | h
  · exact Or.inl (List.mem_of_mem_take h)
  · exact Or.inr h
  · exact Or.inl (List.mem_of_mem_drop (List.mem_of_mem_take h))
  · exact Or.inr h
  · exact Or.inl (List.mem_of_mem_drop (List.mem_of_mem_take h))
  · exact Or.inr h
  · exact Or.inl (List.mem_of_mem_drop (List.mem_of_mem_take h))
  · exact Or.inr h
  · exact Or.inl (List.mem_of_mem_drop h)

theorem no_notion_sub_of_hexdash {pat l : List Char} (hn : 'n' ∈ pat)
    (hmem : ∀ c ∈ l, isHexL c = true ∨ c = '-') : hasSub pat l = false := by
  cases hs : hasSub pat l with
  | false => rfl
  | true =>
    exfalso
    have : 'n' ∈ l := hasSub_subset hs hn
    rcases hmem _ this with h | h
    · simp [isHexL] at h
    · exact absurd h (by decide)

/-- C6 counterexample: the linear validator accepts both surface forms of an
identifier but forwards each parsed string unchanged, so the issue-key form
and the UUID form are not normalized to one identical canonical value before
reaching the adapter. -/
theorem validateLinearId_identity_vectors :
    validateLinearId "ENG-123" = .ok "ENG-123"
      ∧ validateLinearId "11111111-1111-1111-1111-111111111111"
          = .ok "11111111-1111-1111-1111-111111111111"
      ∧ ("ENG-123" : String) ≠ "11111111-1111-1111-1111-111111111111" := by
  refine ⟨?_, ?_, by decide⟩ <;> rfl

/-- C6 amended: both surface forms validate everywhere; the notion validator
normalizes a raw 32-hex ID and its dashed-UUID form to the same dashed UUID,
while the linear validator accepts both the 36-character UUID form and the
issue-key form but returns the input string unchanged (no cross-form
normalization; issue-key resolution is deferred to the adapter/vendor). -/
theorem id_validation_normalization :
    (∀ r : String, rawTest r.toList = true →
        normalizeNotionId r = .ok ⟨dashRaw r.toList⟩
          ∧ normalizeNotionId ⟨dashRaw r.toList⟩ = .ok ⟨dashRaw r.toList⟩)
      ∧ (∀ s : String, (uuid36Test s.toList || issueKeyTest s.toList) = true →
          validateLinearId s = .ok s) := by
  constructor
  · intro r hr
    have hraw : rawTest r.toList = true := hr
    simp only [rawTest, Bool.and_eq_true, beq_iff_eq, List.all_eq_true] at hr
    obtain ⟨h32, hmem⟩ := hr
    have hso : hasSub "notion.so".toList r.toList = false :=
      no_notion_sub_of_hexdash (by decide) fun c hc => Or.inl (hmem c hc)
    have hsite : hasSub "notion.site".toList r.toList = false :=
      no_notion_sub_of_hexdash (by decide) fun c hc => Or.inl (hmem c hc)
    have huuid : uuidTest r.toList = false := uuidTest_raw_false _ h32 hmem
    have hdl : (⟨dashRaw r.toList⟩ : String).toList = dashRaw r.toList := rfl
    have hdso : hasSub "notion.so".toList (dashRaw r.toList) = false :=
      no_notion_sub_of_hexdash (by decide) fun c hc =>
        (mem_dashRaw hc).imp_left (hmem c)
    have hdsite : hasSub "notion.site".toList (dashRaw r.toList) = false :=
      no_notion_sub_of_hexdash (by decide) fun c hc =>
        (mem_dashRaw hc).imp_left (hmem c)
    have hduuid : uuidTest (dashRaw r.toList) = true :=
      uuidTest_of_dashRaw _ h32 hmem
    constructor
    · unfold normalizeNotionId
      rw [hso, hsite, huuid, hraw]
      simp
    · have hdso' :
          hasSub "notion.so".toList (String.mk (dashRaw r.toList)).toList = false :=
        hdso
      have hdsite' :
          hasSub "notion.site".toList (String.mk (dashRaw r.toList)).toList = false :=
        hdsite
      have hduuid' : uuidTest (String.mk (dashRaw r.toList)).toList = true := hduuid
      unfold normalizeNotionId
      rw [hdso', hdsite', hduuid']
      simp
  · intro s hs
    unfold validateLinearId
    rw [if_pos hs]

/-- C6 witness: the raw 32-hex form and the dashed form of a concrete Notion
ID both normalize to the same dashed UUID, and a concrete issue key passes
linear validation. -/
theorem id_validation_normalization_witness :
    rawTest "0123456789abcdef0123456789abcdef".toList = true
      ∧ normalizeNotionId "0123456789abcdef0123456789abcdef"
          = .ok ⟨dashRaw "0123456789abcdef0123456789abcdef".toList⟩
      ∧ (uuid36Test "ENG-123".toList || issueKeyTest "ENG-123".toList) = true
      ∧ validateLinearId "ENG-123" = .ok "ENG-123" := by
  refine ⟨by decide, ?_, by decide, ?_⟩
  · exact (id_validation_normalization.1 "0123456789abcdef0123456789abcdef" (by decide)).1
  · exact id_validation_normalization.2 "ENG-123" (by decide)

/-- C7 counterexample: the `run` action of the SQL path executes the query
without consulting `isSelectQuery`; a query the classifier rejects is sent to
the database verbatim. -/
theorem sql_run_executes_unclassified :
    isSelectQuery "DROP TABLE t" = false
      ∧ handleSqlAction "run" "DROP TABLE t" = .ok (.executed "DROP TABLE t") :=
  ⟨by decide, rfl⟩

/-- C7 amended: only the `explain` action classifies its query with
`isSelectQuery` and rejects non-read-only queries without executing them; the
`run` action executes every shape-valid query string unclassified. -/
theorem sql_action_classification :
    (∀ q : String, handleSqlAction "run" q = .ok (.executed q))
      ∧ (∀ q : String, isSelectQuery q = false →
          handleSqlAction "explain" q
            = .error "EXPLAIN only supports SELECT queries for safety") := by
  constructor
  · intro q
    simp [handleSqlAction, querySchemaParse, sqlRun]
  · intro q hq
    simp [handleSqlAction, querySchemaParse, sqlExplain, hq, bind, Except.bind]

/-- C7 witness: the amended theorem applied at the rejected query
`DROP TABLE t`. -/
theorem sql_action_classification_witness :
    isSelectQuery "DROP TABLE t" = false
      ∧ handleSqlAction "explain" "DROP TABLE t"
          = .error "EXPLAIN only supports SELECT queries for safety" :=
  ⟨by decide, sql_action_classification.2 "DROP TABLE t" (by decide)⟩

/-- C2: the neon and notion error sanitizers are total pure functions: every
thrown value whatsoever — an Error object, a plain string, undefined, null or
anything else — is mapped to a well-formed status/message pair drawn from the
sanitizer's fixed status and message tables; being Lean functions they
perform no I/O and cannot throw. -/
theorem sanitizeError_total :
    (∀ v : ThrownValue, (neonSanitizeError v).status ∈ neonStatuses
        ∧ (neonSanitizeError v).message ∈ neonMessages)
      ∧ (∀ v : ThrownValue, (notionSanitizeError v).status ∈ notionStatuses
        ∧ (notionSanitizeError v).message ∈ notionMessages) := by
  refine ⟨fun v => ?_, fun v => ?_⟩
  · cases v <;> simp only [neonSanitizeError] <;>
      first
        | exact ⟨by decide, by decide⟩
        | (split_ifs <;> exact ⟨by decide, by decide⟩)
  · cases v <;> simp only [notionSanitizeError] <;>
      first
        | exact ⟨by decide, by decide⟩
        | (split_ifs <;> exact ⟨by decide, by decide⟩)

theorem joinComma_category_names :
    joinComma sbCategoryNames = "data, rpc, tables, functions" := by decide

/-- C4 counterexample: a request with an unknown category is answered with
success false and a message naming the category, but the supabase `/action`
route serves it with HTTP 200 — not a status in the 400 class as claimed. -/
theorem sb_unknown_category_http_200 :
    (sbPostAction sbStubVendor "nonexistent" "list").1 = 200
      ∧ ((sbPostAction sbStubVendor "nonexistent" "list").2).success = false
      ∧ ((sbPostAction sbStubVendor "nonexistent" "list").2).error
          = some (.strV "Unknown category: nonexistent. Available: data, rpc, tables, functions")
      ∧ ¬400 ≤ (sbPostAction sbStubVendor "nonexistent" "list").1 := by
  refine ⟨rfl, rfl, rfl, by decide⟩

/-- C4 amended: for an unknown category (and, with the action message, for an
unknown action in a known category) the supabase `handleAction` returns
success false with an error naming the rejected category or action, no
handler and hence no vendor call runs, and the process cannot crash (the
handler is a total function) — but the route serves the response with HTTP
200, not a 400-class status. -/
theorem unknown_category_action_contract :
    (∀ (α : Type) (vendor : String → String → Except SbThrown α) (category action : String),
        findCat sbCategoryActions category = none → category ≠ "" → action ≠ "" →
          (sbHandleAction vendor category action).1.success = false
            ∧ (sbHandleAction vendor category action).1.error
                = some (.strV ("Unknown category: " ++ category
                    ++ ". Available: " ++ joinComma sbCategoryNames))
            ∧ (sbHandleAction vendor category action).2 = false
            ∧ (sbPostAction vendor category action).1 = 200)
      ∧ (∀ (α : Type) (vendor : String → String → Except SbThrown α)
            (category : String) (actions : List String) (action : String),
          findCat sbCategoryActions category = some actions → action ∉ actions →
            category ≠ "" → action ≠ "" →
            (sbHandleAction vendor category action).1.success = false
              ∧ (sbHandleAction vendor category action).1.error
                  = some (.strV ("Unknown action: " ++ action ++ ". Available in "
                      ++ category ++ ": " ++ joinComma actions))
              ∧ (sbHandleAction vendor category action).2 = false
              ∧ (sbPostAction vendor category action).1 = 200) := by
  constructor
  · intro α vendor category action hfind hc ha
    have hne : ¬(category = "" ∨ action = "") := not_or.mpr ⟨hc, ha⟩
    refine ⟨?_, ?_, ?_, ?_⟩ <;>
      simp [sbHandleAction, hfind, sbPostAction, hne, joinComma_category_names]
  · intro α vendor category actions action hfind hact hc ha
    have hne : ¬(category = "" ∨ action = "") := not_or.mpr ⟨hc, ha⟩
    refine ⟨?_, ?_, ?_, ?_⟩ <;>
      simp [sbHandleAction, hfind, hact, sbPostAction, hne]

/-- C4 witness: the contract applied at the unknown category `bogus` and at
the unknown action `fly` of the known category `data`. -/
theorem unknown_category_action_contract_witness :
    ((sbHandleAction sbStubVendor "bogus" "list").1.success = false
        ∧ (sbHandleAction sbStubVendor "bogus" "list").1.error
            = some (.strV ("Unknown category: " ++ "bogus"
                ++ ". Available: " ++ joinComma sbCategoryNames))
        ∧ (sbHandleAction sbStubVendor "bogus" "list").2 = false
        ∧ (sbPostAction sbStubVendor "bogus" "list").1 = 200)
      ∧ ((sbHandleAction sbStubVendor "data" "fly").1.success = false
        ∧ (sbHandleAction sbStubVendor "data" "fly").1.error
            = some (.strV ("Unknown action: " ++ "fly" ++ ". Available in "
                ++ "data" ++ ": " ++ joinComma ["select", "insert", "update", "upsert", "delete"]))
        ∧ (sbHandleAction sbStubVendor "data" "fly").2 = false
        ∧ (sbPostAction sbStubVendor "data" "fly").1 = 200) :=
  ⟨unknown_category_action_contract.1 Unit sbStubVendor "bogus" "list"
      (by decide) (by decide) (by decide),
   unknown_category_action_contract.2 Unit sbStubVendor "data"
      ["select", "insert", "update", "upsert", "delete"] "fly"
      (by decide) (by decide) (by decide) (by decide)⟩

/-- C5 counterexample: a failing request (vendor layer throws) is returned by
the supabase route with HTTP status 200, contradicting the claim that every
failing request gets a 4xx/5xx status. -/
theorem sb_vendor_failure_http_200 :
    (sbPostAction sbFailVendor "data" "select").1 = 200
      ∧ ((sbPostAction sbFailVendor "data" "select").2).success = false :=
  ⟨rfl, rfl⟩

/-- C5 amended: the linear `/action` route returns successes as 200 with a
success body and failures with the sanitizer's status — always in 400..599 —
and a failure body; the supabase route instead serves every handled response,
failures included, with HTTP 200 (only a request missing category or action
gets 400). -/
theorem action_status_contract :
    (∀ (α : Type) (d : α), linearPostAction (Except.ok d) = (200, ⟨true, some d, none⟩))
      ∧ (∀ e : ThrownValue,
          linearPostAction (α := Unit) (Except.error e)
            = ((linSanitizeError e).status,
               ⟨false, none, some (linSanitizeError e).message⟩))
      ∧ (∀ e : ThrownValue,
          400 ≤ (linSanitizeError e).status ∧ (linSanitizeError e).status ≤ 599)
      ∧ (∀ (α : Type) (vendor : String → String → Except SbThrown α) (category action : String),
          category ≠ "" → action ≠ "" → (sbPostAction vendor category action).1 = 200) := by
  refine ⟨fun α d => rfl, fun e => rfl, fun e => ?_, fun α vendor category action hc ha => ?_⟩
  · cases e <;> simp only [linSanitizeError] <;>
      first
        | exact ⟨by decide, by decide⟩
        | (split_ifs <;> exact ⟨by decide, by decide⟩)
  · simp [sbPostAction, not_or.mpr ⟨hc, ha⟩]

/-- C5 witness: the amended theorem applied at a concrete failing supabase
request, served with status 200. -/
theorem action_status_contract_witness :
    ("data" : String) ≠ "" ∧ ("select" : String) ≠ ""
      ∧ (sbPostAction sbFailVendor "data" "select").1 = 200 :=
  ⟨by decide, by decide,
   action_status_contract.2.2.2 Unit sbFailVendor "data" "select" (by decide) (by decide)⟩

/-- C8: every response of the linear and supabase `/action` routes satisfies
the envelope invariant — the data field is present exactly when success is
true and the error field is present exactly when success is false. -/
theorem envelope_invariant :
    (∀ (α : Type) (o : Except ThrownValue α),
        (linearPostAction o).2.data.isSome = (linearPostAction o).2.success
          ∧ (linearPostAction o).2.error.isSome = !(linearPostAction o).2.success)
      ∧ (∀ (α : Type) (vendor : String → String → Except SbThrown α) (category action : String),
        (sbPostAction vendor category action).2.data.isSome
            = (sbPostAction vendor category action).2.success
          ∧ (sbPostAction vendor category action).2.error.isSome
            = !(sbPostAction vendor category action).2.success) := by
  constructor
  · intro α o
    cases o <;> simp [linearPostAction]
  · intro α vendor category action
    by_cases hne : category = "" ∨ action = ""
    · simp [sbPostAction, hne]
    · simp only [sbPostAction, if_neg hne]
      cases hf : findCat sbCategoryActions category with
      | none => simp [sbHandleAction, hf]
      | some actions =>
        by_cases ha : action ∈ actions
        · cases hv : vendor category action with
          | ok d => simp [sbHandleAction, hf, ha, hv]
          | error e => cases e <;> simp [sbHandleAction, hf, ha, hv]
        · simp [sbHandleAction, hf, ha]

/-- C9 counterexample: the supabase health body is not exactly the object
with the single field status = "ok"; it carries two further constant fields
(service and port). -/
theorem supabase_health_body_not_exactly_ok :
    (supabaseHealth 0).2 ≠ [("status", JVal.s "ok")] := by decide

/-- C9 amended: each health endpoint is a constant function of the call
index — repeated calls always return HTTP 200 with an identical body and no
state exists to change; the notion body is exactly status = "ok", while the
supabase body additionally carries the constant service and port fields. -/
theorem health_constant :
    (∀ i j : Nat, notionHealth i = notionHealth j ∧ supabaseHealth i = supabaseHealth j)
      ∧ (∀ i : Nat, notionHealth i = (200, [("status", JVal.s "ok")]))
      ∧ (∀ i : Nat, supabaseHealth i
          = (200, [("status", JVal.s "ok"), ("service", JVal.s "supabase-skill"),
                   ("port", JVal.n 9227)])) :=
  ⟨fun _ _ => ⟨rfl, rfl⟩, fun _ => rfl, fun _ => rfl⟩

/-- C10: in an issues create (and update) request, a priority of 0 — though
inside the declared 0-4 range — is falsy, so the handler forwards no priority
at all to the vendor adapter, while a truthy out-of-range priority such as 7
fails `prioritySchema` and the request is rejected before the vendor call is
evaluated. -/
theorem priority_forwarding :
    (∀ tid ttl : String, validateLinearId tid = Except.ok tid → ttl ≠ "" →
        handleIssuesCreate ⟨.strV tid, .strV ttl, .num 0⟩ = Except.ok ⟨tid, ttl, none⟩
          ∧ ∀ n : Int, n ≠ 0 → ¬(0 ≤ n ∧ n ≤ 4) →
              handleIssuesCreate ⟨.strV tid, .strV ttl, .num n⟩
                = Except.error "Number must be between 0 and 4")
      ∧ (∀ iid : String, validateLinearId iid = Except.ok iid →
          handleIssuesUpdate ⟨.strV iid, .num 0⟩ = Except.ok ⟨iid, none⟩
            ∧ ∀ n : Int, n ≠ 0 → ¬(0 ≤ n ∧ n ≤ 4) →
                handleIssuesUpdate ⟨.strV iid, .num n⟩
                  = Except.error "Number must be between 0 and 4") := by
  constructor
  · intro tid ttl htid httl
    constructor
    · simp [handleIssuesCreate, parseLinearIdParam, htid, httl, truthy,
        prioritySchemaParse, bind, Except.bind]
    · intro n hn hrange
      have htr : truthy (.num n) = true := by simp [truthy, bne_iff_ne, hn]
      simp [handleIssuesCreate, parseLinearIdParam, htid, httl, htr,
        prioritySchemaParse, hrange, bind, Except.bind, Except.map]
  · intro iid hiid
    constructor
    · simp [handleIssuesUpdate, parseLinearIdParam, hiid, truthy,
        prioritySchemaParse, bind, Except.bind]
    · intro n hn hrange
      have htr : truthy (.num n) = true := by simp [truthy, bne_iff_ne, hn]
      simp [handleIssuesUpdate, parseLinearIdParam, hiid, htr,
        prioritySchemaParse, hrange, bind, Except.bind, Except.map]

/-! ### C3: bearer-token redaction.  The heart of the proof is that after the
bearer stage of `sanitizeMessage` no bearer match remains, and the later
stages only replace further matches by `[REDACTED]`, which can neither
contain nor complete a bearer match. -/

theorem pmatch_nil {p : JPat} (hne : p.head ≠ []) : pmatch p [] = none := by
  rcases p with ⟨head, ci, tail⟩
  cases head with
  | nil => exact absurd rfl hne
  | cons c s =>
    cases ci <;> simp [pmatch, JPat.atoms, matchAtoms, litPrefixOk, ciIsPrefixOf,
      List.isPrefixOf]

theorem matchAtoms_lit_pos {s : List Char} {c : Char} {ci : Bool} {rest : List RAtom}
    {l : List Char} {len : Nat}
    (h : matchAtoms (.lit (c :: s) ci :: rest) l = some len) : 1 ≤ len := by
  simp only [matchAtoms] at h
  split_ifs at h
  rcases Option.map_eq_some'.mp h with ⟨a, _, ha⟩
  have hc : (c :: s).length = s.length + 1 := rfl
  omega

theorem pmatch_pos {p : JPat} (hne : p.head ≠ []) {l : List Char} {len : Nat}
    (h : pmatch p l = some len) : 1 ≤ len := by
  rcases p with ⟨head, ci, tail⟩
  cases head with
  | nil => exact absurd rfl hne
  | cons c s => exact matchAtoms_lit_pos h

theorem findM_none_iff {p : JPat} (hne : p.head ≠ []) (l : List Char) :
    findM p l = none ↔ ∀ i, pmatch p (l.drop i) = none := by
  induction l with
  | nil =>
    constructor
    · intro _ i
      rw [List.drop_nil]
      exact pmatch_nil hne
    · intro _
      rfl
  | cons c tl ih =>
    constructor
    · intro h i
      cases hm : pmatch p (c :: tl) with
      | some len => simp [findM, hm] at h
      | none =>
        cases i with
        | zero => exact hm
        | succ j =>
          simp only [findM, hm, Option.map_eq_none'] at h
          exact (ih.mp h) j
    · intro h
      have hm : pmatch p (c :: tl) = none := h 0
      have htl : findM p tl = none := ih.mpr fun i => h (i + 1)
      simp [findM, hm, htl]

theorem findM_some_spec {p : JPat} (hne : p.head ≠ []) :
    ∀ {l : List Char} {q len : Nat}, findM p l = some (q, len) →
      pmatch p (l.drop q) = some len ∧ q < l.length
        ∧ ∀ i, i < q → pmatch p (l.drop i) = none := by
  intro l
  induction l with
  | nil => intro q len h; simp [findM] at h
  | cons c tl ih =>
    intro q len h
    cases hm : pmatch p (c :: tl) with
    | some len0 =>
      simp only [findM, hm, Option.some.injEq, Prod.mk.injEq] at h
      obtain ⟨hq, hlen⟩ := h
      subst hlen
      subst hq
      refine ⟨by simpa using hm, by simp, fun i hi => absurd hi (by omega)⟩
    | none =>
      simp only [findM, hm, Option.map_eq_some'] at h
      obtain ⟨⟨q0, len0⟩, hfind, heq⟩ := h
      obtain ⟨hq, hlen⟩ : q0 + 1 = q ∧ len0 = len := by
        constructor
        · exact congrArg Prod.fst heq
        · exact congrArg Prod.snd heq
      subst hq
      subst hlen
      obtain ⟨h1, h2, h3⟩ := ih hfind
      refine ⟨h1, by simpa using Nat.succ_lt_succ h2, fun i hi => ?_⟩
      cases i with
      | zero => exact hm
      | succ j => exact h3 j (by omega)

theorem drop_append_ge {u w : List Char} {i : Nat} (h : u.length ≤ i) :
    (u ++ w).drop i = w.drop (i - u.length) := by
  rw [List.drop_append_eq_append_drop]
  simp [List.drop_eq_nil_of_le h]

theorem countWhile_le (p : Char → Bool) (u : List Char) : countWhile p u ≤ u.length := by
  induction u with
  | nil => simp [countWhile]
  | cons c tl ih =>
    by_cases hc : p c = true <;> simp [countWhile, hc] <;> omega

theorem countWhile_append (p : Char → Bool) (u y : List Char) :
    countWhile p (u ++ y)
      = if countWhile p u = u.length then u.length + countWhile p y
        else countWhile p u := by
  induction u with
  | nil => simp [countWhile]
  | cons c tl ih =>
    by_cases hc : p c = true
    · have h1 : countWhile p ((c :: tl) ++ y) = countWhile p (tl ++ y) + 1 := by
        simp [countWhile, hc]
      have h2 : countWhile p (c :: tl) = countWhile p tl + 1 := by
        simp [countWhile, hc]
      rw [h1, h2, ih, List.length_cons]
      by_cases hcw : countWhile p tl = tl.length
      · simp [hcw]
        omega
      · have hne : ¬(countWhile p tl + 1 = tl.length + 1) := by omega
        simp [hcw, hne]
    · have h1 : countWhile p ((c :: tl) ++ y) = 0 := by simp [countWhile, hc]
      have h2 : countWhile p (c :: tl) = 0 := by simp [countWhile, hc]
      rw [h1, h2, List.length_cons]
      have hne : ¬((0 : Nat) = tl.length + 1) := by omega
      simp [hne]

theorem countWhile_take_mem (p : Char → Bool) (u : List Char) :
    ∀ c ∈ u.take (countWhile p u), p c = true := by
  induction u with
  | nil => simp [countWhile]
  | cons a tl ih =>
    by_cases ha : p a = true
    · intro c hc
      simp only [countWhile, ha, if_true, List.take_succ_cons, List.mem_cons] at hc
      rcases hc with heq | hc
      · rw [heq]; exact ha
      · exact ih c hc
    · simp [countWhile, ha]

theorem ciIsPrefixOf_append {s : List Char} :
    ∀ {x : List Char}, s.length ≤ x.length → ∀ y,
      ciIsPrefixOf s (x ++ y) = ciIsPrefixOf s x := by
  induction s with
  | nil => intro x _ y; rfl
  | cons a as ih =>
    intro x hx y
    cases x with
    | nil => simp at hx
    | cons c xs =>
      simp only [List.cons_append, ciIsPrefixOf, List.append_eq]
      rw [ih (by simpa using hx) y]

theorem ciIsPrefixOf_take_mem {s : List Char} :
    ∀ {l : List Char}, ciIsPrefixOf s l = true →
      ∀ c ∈ l.take s.length, ∃ b ∈ s, ciEq b c = true := by
  induction s with
  | nil => intro l _ c hc; simp at hc
  | cons a as ih =>
    intro l h c hc
    cases l with
    | nil => simp [ciIsPrefixOf] at h
    | cons d tl =>
      simp only [ciIsPrefixOf, Bool.and_eq_true] at h
      simp only [List.length_cons, List.take_succ_cons, List.mem_cons] at hc
      rcases hc with heq | hc
      · rw [heq]
        exact ⟨a, List.mem_cons_self a as, h.1⟩
      · obtain ⟨b, hb, hbc⟩ := ih h.2 c hc
        exact ⟨b, List.mem_cons_of_mem a hb, hbc⟩

theorem ciIsPrefixOf_length {s : List Char} :
    ∀ {l : List Char}, ciIsPrefixOf s l = true → s.length ≤ l.length := by
  induction s with
  | nil => intro l _; simp
  | cons a as ih =>
    intro l h
    cases l with
    | nil => simp [ciIsPrefixOf] at h
    | cons d tl =>
      simp only [ciIsPrefixOf, Bool.and_eq_true] at h
      simpa using ih h.2

theorem matchB_iff {l : List Char} {len : Nat} :
    pmatch patBearer l = some len ↔
      ciIsPrefixOf "Bearer".toList l = true
        ∧ 0 < countWhile isJsWs (l.drop 6)
        ∧ 0 < countWhile isTokChar (l.drop (6 + countWhile isJsWs (l.drop 6)))
        ∧ len = 6 + countWhile isJsWs (l.drop 6)
              + countWhile isTokChar (l.drop (6 + countWhile isJsWs (l.drop 6))) := by
  have h6 : ("Bearer".toList).length = 6 := rfl
  have hdd : (l.drop 6).drop (countWhile isJsWs (l.drop 6))
      = l.drop (6 + countWhile isJsWs (l.drop 6)) := by
    rw [List.drop_drop, Nat.add_comm]
  simp only [pmatch, JPat.atoms, patBearer, matchAtoms, litPrefixOk, if_true, h6, hdd]
  by_cases hpre : ciIsPrefixOf "Bearer".toList l = true
  · rw [if_pos hpre]
    by_cases hk1 : countWhile isJsWs (l.drop 6) = 0
    · simp only [hk1, if_pos rfl, if_true, Option.map_none']
      constructor
      · intro h; exact absurd h (by simp)
      · rintro ⟨-, h1, -, -⟩; omega
    · by_cases hk2 :
          countWhile isTokChar (l.drop (6 + countWhile isJsWs (l.drop 6))) = 0
      · simp only [hk1, if_neg hk1, hk2, if_pos rfl, Option.map_none']
        constructor
        · intro h; exact absurd h (by simp)
        · rintro ⟨-, -, h2, -⟩; omega
      · simp only [if_neg hk1, if_neg hk2, Option.map_some']
        constructor
        · intro hs
          have hv := (Option.some.injEq _ _).mp hs
          exact ⟨hpre, by omega, by omega, by omega⟩
        · rintro ⟨-, -, -, hv⟩
          rw [hv]
          congr 1
          omega
  · rw [if_neg hpre]
    constructor
    · intro h; exact absurd h (by simp)
    · rintro ⟨hci, -, -, -⟩; exact absurd hci hpre

theorem matchB_head {c : Char} {tl : List Char} {len : Nat}
    (h : pmatch patBearer (c :: tl) = some len) : ciEq 'B' c = true := by
  have hpre := (matchB_iff.mp h).1
  have hBl : "Bearer".toList = 'B' :: "earer".toList := rfl
  rw [hBl] at hpre
  simp only [ciIsPrefixOf, Bool.and_eq_true] at hpre
  exact hpre.1

theorem bearer_letter_ok {b c : Char} (hb : b ∈ "Bearer".toList)
    (hc : ciEq b c = true) : bearerCharOK c = true := by
  simp only [ciEq, decide_eq_true_eq] at hc
  fin_cases hb <;>
    · simp only [bearerCharOK, Bool.or_eq_true]
      rw [← hc]
      exact Or.inl (Or.inl (by decide))

theorem matchB_chars {l : List Char} {len : Nat} (h : pmatch patBearer l = some len) :
    ∀ c ∈ l.take len, bearerCharOK c = true := by
  obtain ⟨hpre, hk1, hk2, hlen⟩ := matchB_iff.mp h
  subst hlen
  intro c hc
  rw [List.take_add, List.take_add] at hc
  rcases List.mem_append.mp hc with hc2 | hc2
  · rcases List.mem_append.mp hc2 with hc3 | hc3
    · obtain ⟨b, hb, hbc⟩ := ciIsPrefixOf_take_mem hpre c (by simpa using hc3)
      exact bearer_letter_ok hb hbc
    · have := countWhile_take_mem isJsWs (l.drop 6) c hc3
      simp [bearerCharOK, this]
  · have := countWhile_take_mem isTokChar
      (l.drop (6 + countWhile isJsWs (l.drop 6))) c hc2
    simp [bearerCharOK, this]

theorem bearerCharOK_lbracket : bearerCharOK '[' = false := by decide

theorem redacted_not_bearer_head : ∀ c ∈ REDACTED, ciEq 'B' c = false := by decide

theorem lbracket_in_take :
    ∀ {u : List Char} {w : List Char} {m : Nat}, u.length < m →
      '[' ∈ (u ++ '[' :: w).take m := by
  intro u
  induction u with
  | nil =>
    intro w m hm
    cases m with
    | zero => omega
    | succ n => simp [List.take_succ_cons]
  | cons c u2 ih =>
    intro w m hm
    cases m with
    | zero => omega
    | succ n =>
      simp only [List.cons_append, List.take_succ_cons]
      exact List.mem_cons_of_mem _ (ih (by simpa using hm))

theorem matchB_transfer {x y z : List Char} {len : Nat}
    (h : pmatch patBearer (x ++ y) = some len) (hle : len ≤ x.length) :
    ∃ len2, pmatch patBearer (x ++ z) = some len2 := by
  obtain ⟨hpre, hk1pos, hk2pos, hlen⟩ := matchB_iff.mp h
  have h6x : 6 ≤ x.length := by omega
  have hdy : (x ++ y).drop 6 = x.drop 6 ++ y := List.drop_append_of_le_length h6x
  rw [hdy] at hk1pos hk2pos hlen
  have hl6 : (x.drop 6).length = x.length - 6 := by simp
  have hE1 : countWhile isJsWs (x.drop 6 ++ y) = countWhile isJsWs (x.drop 6) := by
    rw [countWhile_append]
    split_ifs with hfull
    · exfalso
      have hEfull : countWhile isJsWs (x.drop 6 ++ y)
          = (x.drop 6).length + countWhile isJsWs y := by
        rw [countWhile_append, if_pos hfull]
      omega
    · rfl
  rw [hE1] at hk1pos hk2pos hlen
  have hk1lt : countWhile isJsWs (x.drop 6) < (x.drop 6).length := by omega
  have h6k1 : 6 + countWhile isJsWs (x.drop 6) ≤ x.length := by omega
  have hdy2 : (x ++ y).drop (6 + countWhile isJsWs (x.drop 6))
      = x.drop (6 + countWhile isJsWs (x.drop 6)) ++ y :=
    List.drop_append_of_le_length h6k1
  rw [hdy2] at hk2pos hlen
  have hlu2 : (x.drop (6 + countWhile isJsWs (x.drop 6))).length
      = x.length - (6 + countWhile isJsWs (x.drop 6)) := by simp
  have hdz : (x ++ z).drop 6 = x.drop 6 ++ z := List.drop_append_of_le_length h6x
  have hE1z : countWhile isJsWs (x.drop 6 ++ z) = countWhile isJsWs (x.drop 6) := by
    rw [countWhile_append]
    split_ifs with hfull
    · omega
    · rfl
  have hdz2 : (x ++ z).drop (6 + countWhile isJsWs (x.drop 6))
      = x.drop (6 + countWhile isJsWs (x.drop 6)) ++ z :=
    List.drop_append_of_le_length h6k1
  have hE2z :
      0 < countWhile isTokChar (x.drop (6 + countWhile isJsWs (x.drop 6)) ++ z) := by
    rw [countWhile_append]
    split_ifs with hfull2
    · omega
    · have heq : countWhile isTokChar (x.drop (6 + countWhile isJsWs (x.drop 6)) ++ y)
          = countWhile isTokChar (x.drop (6 + countWhile isJsWs (x.drop 6))) := by
        rw [countWhile_append, if_neg hfull2]
      rw [heq] at hk2pos
      exact hk2pos
  have hblen : ("Bearer".toList).length ≤ x.length := by
    have h6 : ("Bearer".toList).length = 6 := rfl
    omega
  have hprex : ciIsPrefixOf "Bearer".toList x = true := by
    rw [← ciIsPrefixOf_append hblen y]
    exact hpre
  have hprez : ciIsPrefixOf "Bearer".toList (x ++ z) = true := by
    rw [ciIsPrefixOf_append hblen z]
    exact hprex
  refine ⟨_, matchB_iff.mpr ⟨hprez, ?_, ?_, rfl⟩⟩
  · rw [hdz, hE1z]
    exact hk1pos
  · rw [hdz, hE1z, hdz2]
    exact hE2z

theorem take_drop_glue {s : List Char} {q i : Nat} (hiq : i ≤ q) :
    (s.take q).drop i ++ s.drop q = s.drop i := by
  rw [List.drop_take]
  have h2 : s.drop q = (s.drop i).drop (q - i) := by
    rw [List.drop_drop]
    congr 1
    omega
  rw [h2, List.take_append_drop]

theorem noB_glue (x t cont : List Char)
    (hx : ∀ i, i < x.length → pmatch patBearer (x.drop i ++ cont) = none)
    (ht : findM patBearer t = none) :
    findM patBearer (x ++ REDACTED ++ t) = none := by
  have hne : patBearer.head ≠ [] := by decide
  rw [findM_none_iff hne]
  intro i
  by_cases hix : i < x.length
  · have hdrop : (x ++ REDACTED ++ t).drop i = x.drop i ++ (REDACTED ++ t) := by
      rw [List.append_assoc, List.drop_append_of_le_length (le_of_lt hix)]
    rw [hdrop]
    cases hm : pmatch patBearer (x.drop i ++ (REDACTED ++ t)) with
    | none => rfl
    | some m =>
      exfalso
      by_cases hmle : m ≤ (x.drop i).length
      · obtain ⟨m2, hm2⟩ := matchB_transfer (z := cont) hm hmle
        have hxi := hx i hix
        rw [hxi] at hm2
        exact Option.noConfusion hm2
      · have hchars := matchB_chars hm
        have hRED : REDACTED ++ t = '[' :: ("REDACTED]".toList ++ t) := rfl
        have hmem : '[' ∈ (x.drop i ++ (REDACTED ++ t)).take m := by
          rw [hRED]
          exact lbracket_in_take (by omega)
        have h1 := hchars '[' hmem
        rw [bearerCharOK_lbracket] at h1
        exact Bool.noConfusion h1
  · by_cases hired : i < x.length + REDACTED.length
    · have hxle : x.length ≤ i := le_of_not_lt hix
      have hdrop : (x ++ REDACTED ++ t).drop i = (REDACTED ++ t).drop (i - x.length) := by
        rw [List.append_assoc]
        exact drop_append_ge hxle
      have hjlt : i - x.length < REDACTED.length := by omega
      have hdrop2 : (REDACTED ++ t).drop (i - x.length)
          = REDACTED.drop (i - x.length) ++ t :=
        List.drop_append_of_le_length (le_of_lt hjlt)
      have hget : REDACTED.drop (i - x.length)
          = REDACTED.get ⟨i - x.length, hjlt⟩ :: REDACTED.drop (i - x.length + 1) :=
        List.drop_eq_get_cons hjlt
      rw [hdrop, hdrop2, hget, List.cons_append]
      cases hm : pmatch patBearer
          (REDACTED.get ⟨i - x.length, hjlt⟩
            :: (REDACTED.drop (i - x.length + 1) ++ t)) with
      | none => rfl
      | some m =>
        exfalso
        have hhead := matchB_head hm
        have hmem : REDACTED.get ⟨i - x.length, hjlt⟩ ∈ REDACTED := List.get_mem _ _ _
        have hfalse := redacted_not_bearer_head _ hmem
        rw [hfalse] at hhead
        exact Bool.noConfusion hhead
    · have hdrop : (x ++ REDACTED ++ t).drop i
          = t.drop (i - (x.length + REDACTED.length)) := by
        rw [List.append_assoc]
        rw [drop_append_ge (by omega : x.length ≤ i)]
        rw [drop_append_ge (by omega : REDACTED.length ≤ i - x.length)]
        rw [Nat.sub_sub]
      rw [hdrop]
      exact (findM_none_iff hne t).mp ht _

/-- After the bearer stage of the sanitizer, no bearer match remains anywhere
in the text. -/
theorem replaceGo_bearer_noB :
    ∀ (n : Nat) (s : List Char), s.length ≤ n →
      findM patBearer (replaceGo patBearer REDACTED n s) = none := by
  have hne : patBearer.head ≠ [] := by decide
  intro n
  induction n with
  | zero =>
    intro s hs
    have hnil : s = [] := List.length_eq_zero.mp (by omega)
    subst hnil
    simp [replaceGo, findM]
  | succ n ih =>
    intro s hs
    cases hf : findM patBearer s with
    | none =>
      simp only [replaceGo, hf]
    | some ql =>
      obtain ⟨q, len⟩ := ql
      simp only [replaceGo, hf]
      obtain ⟨hq, hqlen, hfirst⟩ := findM_some_spec hne hf
      have hpos : 1 ≤ len := pmatch_pos hne hq
      have hfuel : (s.drop (q + len)).length ≤ n := by
        simp only [List.length_drop]
        omega
      apply noB_glue _ _ (s.drop q)
      · intro i hi
        have htq : (s.take q).length = q := by
          simp [List.length_take]
          omega
        have hiq : i < q := by omega
        rw [take_drop_glue (le_of_lt hiq)]
        exact hfirst i hiq
      · exact ih _ hfuel

/-- Each later stage of the sanitizer preserves the absence of bearer
matches: the stage only cuts out its own matches and splices in
`[REDACTED]`, which cannot take part in a bearer match. -/
theorem replaceGo_preserves_noB (p : JPat) (hp : p.head ≠ []) :
    ∀ (n : Nat) (s : List Char), s.length ≤ n →
      findM patBearer s = none →
      findM patBearer (replaceGo p REDACTED n s) = none := by
  have hne : patBearer.head ≠ [] := by decide
  intro n
  induction n with
  | zero =>
    intro s hs hnoB
    have hnil : s = [] := List.length_eq_zero.mp (by omega)
    subst hnil
    simpa [replaceGo] using hnoB
  | succ n ih =>
    intro s hs hnoB
    cases hf : findM p s with
    | none =>
      simp only [replaceGo, hf]
      exact hnoB
    | some ql =>
      obtain ⟨q, len⟩ := ql
      simp only [replaceGo, hf]
      obtain ⟨hq, hqlen, hfirst⟩ := findM_some_spec hp hf
      have hpos : 1 ≤ len := pmatch_pos hp hq
      have hfuel : (s.drop (q + len)).length ≤ n := by
        simp only [List.length_drop]
        omega
      have hnoBs : ∀ i, pmatch patBearer (s.drop i) = none :=
        (findM_none_iff hne s).mp hnoB
      apply noB_glue _ _ (s.drop q)
      · intro i hi
        have htq : (s.take q).length = q := by
          simp [List.length_take]
          omega
        have hiq : i < q := by omega
        rw [take_drop_glue (le_of_lt hiq)]
        exact hnoBs i
      · apply ih _ hfuel
        rw [findM_none_iff hne]
        intro i
        rw [List.drop_drop]
        exact hnoBs _

/-- The composed `sanitizeMessage` pipeline leaves no bearer match: the
bearer stage removes them all and the remaining stages preserve that. -/
theorem sanitizeMessage_noB (l : List Char) :
    findM patBearer
      (sensitivePatterns.foldl (fun result p => replaceAllRed p REDACTED result) l)
      = none := by
  simp only [sensitivePatterns, List.foldl_cons, List.foldl_nil]
  have h5 : findM patBearer
      (replaceAllRed patBearer REDACTED
        (replaceAllRed patAnon REDACTED
          (replaceAllRed patServiceRole REDACTED
            (replaceAllRed patJwt REDACTED
              (replaceAllRed patSupabaseCo REDACTED l))))) = none :=
    replaceGo_bearer_noB _ _ le_rfl
  have h6 := replaceGo_preserves_noB patApiKey (by decide) _ _ le_rfl h5
  have h7 := replaceGo_preserves_noB patPostgres (by decide) _ _ le_rfl h6
  have h8 := replaceGo_preserves_noB patPostgresql (by decide) _ _ le_rfl h7
  exact replaceGo_preserves_noB patPassword (by decide) _ _ le_rfl h8

theorem string_mk_toList (l : List Char) : (String.mk l).toList = l := rfl

theorem sanitizeMessage_eq (m : String) :
    sanitizeMessage m
      = String.mk
          (sensitivePatterns.foldl (fun result p => replaceAllRed p REDACTED result)
            m.toList) := rfl

theorem sanitizeMessage_toList_noB (m : String) :
    findM patBearer ((sanitizeMessage m).toList) = none := by
  rw [sanitizeMessage_eq, string_mk_toList]
  exact sanitizeMessage_noB m.toList

/-- C3: whatever is thrown, the message produced by the supabase sanitizer
contains no bearer-token-shaped substring: the matcher for the pattern
`Bearer` + whitespace + token characters finds no match at any position of
the output, even when the message was the fixed fallback string — the
redaction scan runs on the final message in every branch.  The neon
sanitizer's outputs are fixed strings, none of which contains such a
substring.  (A bearer-shaped substring occurs in a text exactly when the
matcher matches at some position, so `findM … = none` states that no such
substring is contained.) -/
theorem bearer_redaction :
    (∀ v : SbThrown, findM patBearer ((sbSanitizeError v).message.toList) = none)
      ∧ (∀ v : ThrownValue, findM patBearer ((neonSanitizeError v).message.toList) = none) := by
  constructor
  · intro v
    cases v with
    | skillError m code => exact sanitizeMessage_toList_noB m
    | zodError m => exact sanitizeMessage_toList_noB m
    | jsError m code => exact sanitizeMessage_toList_noB m
    | strVal s => exact sanitizeMessage_toList_noB s
    | otherVal => exact sanitizeMessage_toList_noB "An unexpected error occurred"
  · intro v
    cases v with
    | errObj name message =>
      simp only [neonSanitizeError]
      split_ifs <;> decide
    | strVal s =>
      simp only [neonSanitizeError]
      decide
    | undef => decide
    | nullVal => decide
    | otherVal => decide

/-- C10 witness: the theorem applied at a concrete create request with
priority 0 (forwarded absent) and priority 7 (rejected). -/
theorem priority_forwarding_witness :
    validateLinearId "ENG-123" = Except.ok "ENG-123"
      ∧ handleIssuesCreate ⟨.strV "ENG-123", .strV "Fix login bug", .num 0⟩
          = Except.ok ⟨"ENG-123", "Fix login bug", none⟩
      ∧ handleIssuesCreate ⟨.strV "ENG-123", .strV "Fix login bug", .num 7⟩
          = Except.error "Number must be between 0 and 4" :=
  ⟨rfl,
   (priority_forwarding.1 "ENG-123" "Fix login bug" rfl (by decide)).1,
   (priority_forwarding.1 "ENG-123" "Fix login bug" rfl (by decide)).2 7
     (by decide) (by decide)⟩

end Skills
